import Mathlib

/-!
Shallow embedding of the `table` crate (`src/lib.rs`): a 2-D grid container
with row/column spans, stored row-major.  Machine integers (`u32`, `usize`)
are modelled as `Nat`; a Rust panic (failed `assert_eq!`, out-of-bounds
slot access, `chunks_exact(0)`) is modelled as `Option.none`.
-/

namespace TableRs

/-- `Cell<T>` from the source: empty, the anchor of a span, or a position
shadowed by the anchor at `(col, row)`. -/
inductive Cell (T : Type) where
  | Empty : Cell T
  | Occupied (value : T) (colspan rowspan : Nat) : Cell T
  | Shadowed (col row : Nat) : Cell T
deriving DecidableEq, Repr

/-- `Error` from the source: the single conflict error. -/
inductive Error where
  | Shadowed (col row : Nat) : Error
deriving DecidableEq, Repr

/-- `Table<T>` from the source: dimensions plus the flat row-major cell list. -/
structure Table (T : Type) where
  num_cols : Nat
  num_rows : Nat
  cells : List (Cell T)
deriving DecidableEq, Repr

namespace Table

variable {T U : Type}

/-- `Table::new()`. -/
def new : Table T := { num_cols := 0, num_rows := 0, cells := [] }

/-- `Table::empty(rows, columns)`. -/
def empty (rows columns : Nat) : Table T :=
  { num_cols := columns, num_rows := rows,
    cells := List.replicate (rows * columns) Cell.Empty }

/-- `Table::size()`. -/
def size (t : Table T) : Nat × Nat := (t.num_rows, t.num_cols)

/-- `Table::cell_index(row, col)`: flat row-major index. -/
def cell_index (t : Table T) (row col : Nat) : Nat :=
  t.num_cols * row + col

/-- `Table::set(row, col, value)`: write a cell; the source panics when the
index is outside storage, modelled as `none`. -/
def set (t : Table T) (row col : Nat) (value : Cell T) : Option (Table T) :=
  if t.cell_index row col < t.cells.length then
    some { t with cells := t.cells.set (t.cell_index row col) value }
  else
    none

/-- `Table::replace(row, col, value)`: swap a cell out, returning the old
one; panic on out-of-bounds modelled as `none`. -/
def replace (t : Table T) (row col : Nat) (value : Cell T) :
    Option (Cell T × Table T) :=
  match t.cells[t.cell_index row col]? with
  | some cell =>
      some (cell, { t with cells := t.cells.set (t.cell_index row col) value })
  | none => none

/-- The Rust range `lo .. hi` as a list (`lo, lo+1, …, hi-1`; empty when
`hi ≤ lo`). -/
def rangeL (lo hi : Nat) : List Nat :=
  (List.range (hi - lo)).map (fun i => i + lo)

/-- Run `Table::set` over a list of `(row, col)` targets in order, all with
the same cell value, propagating the panic. -/
def setEach (t : Table T) (ps : List (Nat × Nat)) (value : Cell T) :
    Option (Table T) :=
  match ps with
  | [] => some t
  | (r, c) :: rest => (t.set r c value).bind (fun t1 => setEach t1 rest value)

/-- The `(row, col)` targets of a nested Rust loop
`for c in cols { for r in rows { … } }`: outer over columns, inner over rows. -/
def colRowPairs (cs rs : List Nat) : List (Nat × Nat) :=
  cs.flatMap (fun c => rs.map (fun r => (r, c)))

/-- The column-growth loop of `set_cell`: for each of the `n` remaining rows,
take `num_cols` old cells and append `newCols - num_cols` fresh `Empty` cells. -/
def growColsLoop (cells : List (Cell T)) (n num_cols newCols : Nat) :
    List (Cell T) :=
  match n with
  | 0 => []
  | n + 1 =>
      cells.take num_cols ++ List.replicate (newCols - num_cols) Cell.Empty
        ++ growColsLoop (cells.drop num_cols) n num_cols newCols

/-- The `assert_eq!(num_cols * num_rows, cells.len())` check run after each
growth phase; failure panics (modelled as `none`). -/
def checkShape (t : Table T) : Option (Table T) :=
  if t.num_cols * t.num_rows = t.cells.length then some t else none

/-- Column-growth phase of `set_cell`: when the target needs more columns,
rebuild storage row by row with the new width, then assert the shape. -/
def growCols (t : Table T) (cols : Nat) : Option (Table T) :=
  if cols > t.num_cols then
    checkShape
      { num_cols := cols, num_rows := t.num_rows,
        cells := growColsLoop t.cells t.num_rows t.num_cols cols }
  else
    some t

/-- Row-growth phase of `set_cell`: when the target needs more rows, append
fresh `Empty` cells, then assert the shape. -/
def growRows (t : Table T) (rows : Nat) : Option (Table T) :=
  if rows > t.num_rows then
    checkShape
      { num_cols := t.num_cols, num_rows := rows,
        cells := t.cells
          ++ List.replicate ((rows - t.num_rows) * t.num_cols) Cell.Empty }
  else
    some t

/-- The growth phase of `set_cell`: widen columns, then add rows. -/
def grow (t : Table T) (rows cols : Nat) : Option (Table T) :=
  (growCols t cols).bind (fun t1 => growRows t1 rows)

/-- `Table::set_cell(value, row, col, rowspan, colspan)`.  Grows the grid,
swaps the new `Occupied` cell in at the anchor, then branches on the old
cell exactly as the source does.  `none` models a panic; otherwise the
result carries the `Result` value and the table after the call. -/
def set_cell (t : Table T) (value : T) (row col rowspan colspan : Nat) :
    Option (Except Error (Option T) × Table T) :=
  (grow t (row + rowspan) (col + colspan)).bind (fun t1 =>
    (t1.replace row col (Cell.Occupied value colspan rowspan)).bind
      (fun p =>
        match p with
        | (Cell.Occupied cell_value old_colspan old_rowspan, t2) =>
            (setEach t2
              ((rangeL (row + 1) (row + old_rowspan)).map (fun r => (r, col)))
              Cell.Empty).bind (fun t3 =>
            (setEach t3
              (colRowPairs (rangeL (col + 1) (col + old_colspan))
                (rangeL row (row + old_rowspan)))
              Cell.Empty).bind (fun t4 =>
            (setEach t4
              ((rangeL (row + 1) (row + rowspan)).map (fun r => (r, col)))
              (Cell.Shadowed col row)).bind (fun t5 =>
            (setEach t5
              (colRowPairs (rangeL col (col + colspan))
                (rangeL row (row + rowspan)))
              (Cell.Shadowed col row)).bind (fun t6 =>
            some (Except.ok (some cell_value), t6)))))
        | (Cell.Empty, t2) =>
            (setEach t2
              ((rangeL (row + 1) (row + rowspan)).map (fun r => (r, col)))
              (Cell.Shadowed col row)).bind (fun t3 =>
            (setEach t3
              (colRowPairs (rangeL (col + 1) (col + colspan))
                (rangeL row (row + rowspan)))
              (Cell.Shadowed col row)).bind (fun t4 =>
            some (Except.ok none, t4)))
        | (Cell.Shadowed c r, t2) =>
            some (Except.error (Error.Shadowed c r), t2)))

/-- `Table::get_cell_value_mut(row, col)`: the value behind the flat index,
only when that slot is `Occupied`. -/
def get_cell_value_mut (t : Table T) (row col : Nat) : Option T :=
  match t.cells[t.cell_index row col]? with
  | some (Cell.Occupied value _ _) => some value
  | _ => none

end Table

/-- The full chunks of `slice::chunks_exact(k)` once `k ≠ 0`: successive
blocks of `k` elements, the remainder dropped. -/
def chunksGo (l : List α) (k : Nat) : List (List α) :=
  if _h : 0 < k ∧ k ≤ l.length then
    l.take k :: chunksGo (l.drop k) k
  else
    []
termination_by l.length
decreasing_by
  simp only [List.length_drop]
  omega

/-- `slice::chunks_exact(k)`: panics (modelled `none`) when `k = 0`. -/
def chunks_exact (l : List α) (k : Nat) : Option (List (List α)) :=
  if k = 0 then none else some (chunksGo l k)

namespace Table

variable {T U : Type}

/-- `Table::cells_iter()`: row chunks enumerated, flattened to
`(row, col, cell)` triples; inherits the `chunks_exact(0)` panic. -/
def cells_iter (t : Table T) : Option (List (Nat × Nat × Cell T)) :=
  (chunks_exact t.cells t.num_cols).map (fun chs =>
    chs.enum.flatMap (fun p => p.2.enum.map (fun q => (p.1, q.1, q.2))))

/-- `Table::map(f)`: every `Occupied` value through `f`, geometry untouched. -/
def map (t : Table T) (f : T → U) : Table U :=
  { num_cols := t.num_cols, num_rows := t.num_rows,
    cells := t.cells.map (fun cell =>
      match cell with
      | Cell.Empty => Cell.Empty
      | Cell.Occupied value colspan rowspan =>
          Cell.Occupied (f value) colspan rowspan
      | Cell.Shadowed col row => Cell.Shadowed col row) }

/-- The stateful closure of `Table::flat_map`: maps the enumerated cells in
order, threading the `deleted` set (modelled as a list of `(col, row)`
pairs, newest first). -/
def flatMapGo (f : T → Option U) :
    List (Nat × Nat × Cell T) → List (Nat × Nat) → List (Cell U)
  | [], _ => []
  | (row, col, cell) :: rest, deleted =>
    match cell with
    | Cell.Empty => Cell.Empty :: flatMapGo f rest deleted
    | Cell.Occupied value colspan rowspan =>
        match f value with
        | some u => Cell.Occupied u colspan rowspan :: flatMapGo f rest deleted
        | none =>
            Cell.Empty :: flatMapGo f rest
              (if colspan ≠ 1 ∧ rowspan ≠ 1 then (col, row) :: deleted
               else deleted)
    | Cell.Shadowed c r =>
        (if (c, r) ∈ deleted then Cell.Empty else Cell.Shadowed c r)
          :: flatMapGo f rest deleted

/-- `Table::flat_map(f)`: value-filtering transform over the enumerated
cells, clearing shadows of anchors already recorded as deleted.  Inherits
the `cells_iter` panic on zero columns. -/
def flat_map (t : Table T) (f : T → Option U) : Option (Table U) :=
  (t.cells_iter).map (fun l =>
    { num_cols := t.num_cols, num_rows := t.num_rows,
      cells := flatMapGo f l [] })

end Table

/-- A generic output sink (`W: fmt::Write`): each write either yields the
updated sink or a write error. -/
structure Writer (σ ε : Type) where
  write : σ → String → Except ε σ

/-- The per-cell body of `format_html`: `<td></td>` for empty, a `<td>` with
optional `colspan`/`rowspan` attributes and the formatted value for an
anchor, nothing for a shadowed slot. -/
def formatCellW {σ ε T : Type} (W : Writer σ ε)
    (format_cell : σ → T → Except ε σ) (w : σ) (cell : Cell T) :
    Except ε σ :=
  match cell with
  | Cell.Empty => W.write w "<td></td>"
  | Cell.Occupied value colspan rowspan => do
      let w ← W.write w "<td"
      let w ←
        if colspan ≠ 1 then W.write w (" colspan=" ++ toString colspan)
        else pure w
      let w ←
        if rowspan ≠ 1 then W.write w (" rowspan=" ++ toString rowspan)
        else pure w
      let w ← W.write w ">"
      let w ← format_cell w value
      W.write w "</td>\n"
  | Cell.Shadowed _ _ => pure w

/-- One `<tr>` line of `format_html`. -/
def formatRowW {σ ε T : Type} (W : Writer σ ε)
    (format_cell : σ → T → Except ε σ) (w : σ) (cells : List (Cell T)) :
    Except ε σ := do
  let w ← W.write w "<tr>\n"
  let w ← cells.foldlM (fun w cell => formatCellW W format_cell w cell) w
  W.write w "</tr>\n"

/-- All `<tr>` lines of `format_html`. -/
def formatRowsW {σ ε T : Type} (W : Writer σ ε)
    (format_cell : σ → T → Except ε σ) (w : σ) (rows : List (List (Cell T))) :
    Except ε σ :=
  rows.foldlM (fun w cells => formatRowW W format_cell w cells) w

namespace Table

variable {T : Type}

/-- `Table::format_html(w, format_cell)`: asserts the shape invariant
(panic modelled `none`), renders nothing on a zero dimension, otherwise
writes the `<table>`/`<tbody>` wrapper around the rows; a sink error
short-circuits through the `Except` monad. -/
def format_html {σ ε : Type} (W : Writer σ ε) (t : Table T)
    (format_cell : σ → T → Except ε σ) (w : σ) : Option (Except ε σ) :=
  if t.num_cols * t.num_rows = t.cells.length then
    if t.num_cols = 0 ∨ t.num_rows = 0 then
      some (Except.ok w)
    else
      (chunks_exact t.cells t.num_cols).map (fun rows => do
        let w ← W.write w "<table>\n"
        let w ← W.write w "<tbody>\n"
        let w ← formatRowsW W format_cell w rows
        let w ← W.write w "</tbody>\n"
        W.write w "</table>\n")
  else
    none

end Table

/-- The tables reachable through the public constructors and successful
`set_cell` calls whose spans are at least 1 in both dimensions. -/
inductive Reach (T : Type) : Table T → Prop where
  | new : Reach T Table.new
  | empty (rows cols : Nat) : Reach T (Table.empty rows cols)
  | step {t t' : Table T} (value : T) (row col rowspan colspan : Nat)
      (res : Except Error (Option T))
      (hrs : 1 ≤ rowspan) (hcs : 1 ≤ colspan)
      (hstep : t.set_cell value row col rowspan colspan = some (res, t'))
      (hre : Reach T t) : Reach T t'

/-- Specification view of `chunks_exact` on a list of known shape: `n`
chunks of `k` elements each. -/
def chunksList {α : Type} : Nat → Nat → List α → List (List α)
  | 0, _, _ => []
  | n + 1, k, cells => cells.take k :: chunksList n k (cells.drop k)

/-- The row-major `(row, col, cell)` enumeration produced by `cells_iter`,
with the row counter starting at `r0`. -/
def enumFlatten {α : Type} (r0 : Nat) (chs : List (List α)) :
    List (Nat × Nat × α) :=
  (chs.enumFrom r0).flatMap (fun p => p.2.enum.map (fun q => (p.1, q.1, q.2)))

/-- The value `flat_map` writes at one position, as described by the spec:
`Empty` stays `Empty`; an `Occupied` cell keeps its span under `f` or
becomes `Empty`; a `Shadowed` cell whose anchor is already in the recorded
dropped set becomes `Empty`, any other `Shadowed` cell is unchanged. -/
def flatMapOutCell {T U : Type} (f : T → Option U) (cell : Cell T)
    (deleted : List (Nat × Nat)) : Cell U :=
  match cell with
  | Cell.Empty => Cell.Empty
  | Cell.Occupied v cs rs =>
      match f v with
      | some u => Cell.Occupied u cs rs
      | none => Cell.Empty
  | Cell.Shadowed c r =>
      if (c, r) ∈ deleted then Cell.Empty else Cell.Shadowed c r

/-- The dropped-set update after `flat_map` visits one enumerated cell: an
anchor is recorded only when `f` yields nothing *and* both spans differ
from 1. -/
def flatMapStep {T U : Type} (f : T → Option U) (p : Nat × Nat × Cell T)
    (deleted : List (Nat × Nat)) : List (Nat × Nat) :=
  match p with
  | (row, col, Cell.Occupied v cs rs) =>
      match f v with
      | some _ => deleted
      | none => if cs ≠ 1 ∧ rs ≠ 1 then (col, row) :: deleted else deleted
  | _ => deleted

/-- The dropped set accumulated over a prefix of the enumeration. -/
def dropsAcc {T U : Type} (f : T → Option U) :
    List (Nat × Nat × Cell T) → List (Nat × Nat) → List (Nat × Nat)
  | [], D => D
  | p :: rest, D => dropsAcc f rest (flatMapStep f p D)

/-- The anchors recorded as dropped among the first `i` cells of a
row-major grid of width `numCols` (most recent first), as described by the
spec: the anchor at flat index `j` — coordinates
`(col, row) = (j % numCols, j / numCols)` — is recorded exactly when the
cell is `Occupied`, `f` yields nothing, and both spans differ from 1. -/
def droppedBefore {T U : Type} (f : T → Option U) (numCols : Nat)
    (cells : List (Cell T)) : Nat → List (Nat × Nat)
  | 0 => []
  | i + 1 =>
      match cells[i]? with
      | some (Cell.Occupied v cs rs) =>
          match f v with
          | some _ => droppedBefore f numCols cells i
          | none =>
              if cs ≠ 1 ∧ rs ≠ 1 then
                (i % numCols, i / numCols) :: droppedBefore f numCols cells i
              else droppedBefore f numCols cells i
      | _ => droppedBefore f numCols cells i

/-- The sink that appends every write to a `String` and never fails. -/
def strWriter {ε : Type} : Writer String ε :=
  { write := fun s x => Except.ok (s ++ x) }

/-- A sink whose every write fails with the fixed error `e`. -/
def failWriter {σ ε : Type} (e : ε) : Writer σ ε :=
  { write := fun _ _ => Except.error e }

/-- The cell formatter that appends `f value` to the string sink. -/
def appendFormat {T ε : Type} (f : T → String) :
    String → T → Except ε String :=
  fun w v => Except.ok (w ++ f v)

/-- The `<td>` fragment the spec prescribes for one cell: an empty element
for `Empty`, an element with unquoted `colspan=N` then `rowspan=N`
attributes (each only when `N ≠ 1`) and the rendered value for `Occupied`,
nothing for `Shadowed`. -/
def specCellStr {T : Type} (f : T → String) (cell : Cell T) : String :=
  match cell with
  | Cell.Empty => "<td></td>"
  | Cell.Occupied v cs rs =>
      "<td" ++ (if cs ≠ 1 then " colspan=" ++ toString cs else "")
        ++ (if rs ≠ 1 then " rowspan=" ++ toString rs else "")
        ++ ">" ++ f v ++ "</td>
"
  | Cell.Shadowed _ _ => ""

/-- The concatenated cell fragments of one grid row. -/
def specRowStr {T : Type} (f : T → String) : List (Cell T) → String
  | [] => ""
  | cell :: rest => specCellStr f cell ++ specRowStr f rest

/-- One `<tr>` element per grid row, over the `n` rows of a width-`k`
row-major cell list. -/
def specRowsStr {T : Type} (f : T → String) : Nat → Nat → List (Cell T) →
    String
  | 0, _, _ => ""
  | n + 1, k, cells =>
      "<tr>
" ++ specRowStr f (cells.take k) ++ "</tr>
"
        ++ specRowsStr f n k (cells.drop k)

/-- The full HTML fragment the spec prescribes: nothing for a zero
dimension, otherwise a `<table>` wrapping a `<tbody>` wrapping the rows. -/
def htmlSpec {T : Type} (f : T → String) (t : Table T) : String :=
  if t.num_cols = 0 ∨ t.num_rows = 0 then ""
  else
    "<table>
<tbody>
"
      ++ specRowsStr f t.num_rows t.num_cols t.cells
      ++ "</tbody>
</table>
"

/-- A sink with a write budget: the first component counts the writes it
will still accept.  Each successful write consumes one unit and appends to
the second component; the write after the budget runs out fails with the
fixed error `e`.  Instantiating the budget at every value models a sink
whose failure occurs at an arbitrary position in the write sequence. -/
def budgetWriter {ε : Type} (e : ε) : Writer (Nat × String) ε :=
  { write := fun s x =>
      match s.1 with
      | 0 => Except.error e
      | n + 1 => Except.ok (n, s.2 ++ x) }

/-- The cell formatter that renders a value with `f` and emits it through
the budget sink itself (one sink write per value). -/
def budgetValueWrite {T ε : Type} (f : T → String) (e : ε) :
    Nat × String → T → Except ε (Nat × String) :=
  fun w v => (budgetWriter e).write w (f v)

/-- How many sink writes `format_html` performs for one cell: one for an
`Empty` cell; for an `Occupied` cell one per emitted piece (`<td`, each
present span attribute, `>`, the formatted value, `</td>`); none for a
`Shadowed` cell. -/
def cellWrites {T : Type} (cell : Cell T) : Nat :=
  match cell with
  | Cell.Empty => 1
  | Cell.Occupied _ cs rs =>
      4 + (if cs ≠ 1 then 1 else 0) + (if rs ≠ 1 then 1 else 0)
  | Cell.Shadowed _ _ => 0

/-- Sink writes for the cells of one row. -/
def rowWrites {T : Type} : List (Cell T) → Nat
  | [] => 0
  | cell :: rest => cellWrites cell + rowWrites rest

/-- Sink writes for the `n` rows of a width-`k` grid: `<tr>`, the cells,
`</tr>` for each row. -/
def rowsWrites {T : Type} : Nat → Nat → List (Cell T) → Nat
  | 0, _, _ => 0
  | n + 1, k, cells =>
      2 + rowWrites (cells.take k) + rowsWrites n k (cells.drop k)

/-- The total number of sink writes `format_html` performs on a grid:
nothing for a zero dimension, otherwise the four wrapper writes plus the
rows. -/
def totalWrites {T : Type} (t : Table T) : Nat :=
  if t.num_cols = 0 ∨ t.num_rows = 0 then 0
  else 4 + rowsWrites t.num_rows t.num_cols t.cells

/-! ## Basic preservation lemmas -/

namespace Table

variable {T U : Type}

theorem set_some_shape {t t' : Table T} {row col : Nat} {v : Cell T}
    (h : t.set row col v = some t') :
    t'.num_cols = t.num_cols ∧ t'.num_rows = t.num_rows ∧
      t'.cells.length = t.cells.length := by
  unfold set at h
  by_cases hb : t.cell_index row col < t.cells.length
  · simp only [hb, if_pos] at h
    cases h
    simp
  · simp [hb] at h

theorem replace_some_shape {t t' : Table T} {row col : Nat} {v old : Cell T}
    (h : t.replace row col v = some (old, t')) :
    t'.num_cols = t.num_cols ∧ t'.num_rows = t.num_rows ∧
      t'.cells.length = t.cells.length := by
  unfold replace at h
  cases hg : t.cells[t.cell_index row col]? with
  | none => rw [hg] at h; exact absurd h (by simp)
  | some c =>
      rw [hg] at h
      cases h
      simp

theorem setEach_some_shape {v : Cell T} :
    ∀ {ps : List (Nat × Nat)} {t t' : Table T},
      setEach t ps v = some t' →
      t'.num_cols = t.num_cols ∧ t'.num_rows = t.num_rows ∧
        t'.cells.length = t.cells.length := by
  intro ps
  induction ps with
  | nil => intro t t' h; cases h; exact ⟨rfl, rfl, rfl⟩
  | cons p rest ih =>
      intro t t' h
      obtain ⟨r, c⟩ := p
      simp only [setEach, Option.bind_eq_some] at h
      obtain ⟨t1, h1, h2⟩ := h
      obtain ⟨a1, a2, a3⟩ := set_some_shape h1
      obtain ⟨b1, b2, b3⟩ := ih h2
      exact ⟨b1.trans a1, b2.trans a2, b3.trans a3⟩

theorem checkShape_some {t t' : Table T} (h : checkShape t = some t') :
    t' = t ∧ t.num_cols * t.num_rows = t.cells.length := by
  unfold checkShape at h
  split at h
  · cases h; exact ⟨rfl, by assumption⟩
  · exact absurd h (by simp)

theorem growCols_some_dims {t t' : Table T} {cols : Nat}
    (h : growCols t cols = some t') :
    t'.num_cols = max t.num_cols cols ∧ t'.num_rows = t.num_rows := by
  unfold growCols at h
  split at h
  · obtain ⟨he, _⟩ := checkShape_some h
    subst he
    refine ⟨?_, rfl⟩
    show cols = max t.num_cols cols
    omega
  · cases h
    refine ⟨?_, rfl⟩
    omega

theorem growRows_some_dims {t t' : Table T} {rows : Nat}
    (h : growRows t rows = some t') :
    t'.num_cols = t.num_cols ∧ t'.num_rows = max t.num_rows rows := by
  unfold growRows at h
  split at h
  · obtain ⟨he, _⟩ := checkShape_some h
    subst he
    refine ⟨rfl, ?_⟩
    show rows = max t.num_rows rows
    omega
  · cases h
    refine ⟨rfl, ?_⟩
    omega

theorem grow_some_dims {t t' : Table T} {rows cols : Nat}
    (h : grow t rows cols = some t') :
    t'.num_cols = max t.num_cols cols ∧ t'.num_rows = max t.num_rows rows := by
  unfold grow at h
  rw [Option.bind_eq_some] at h
  obtain ⟨t1, h1, h2⟩ := h
  obtain ⟨a1, a2⟩ := growCols_some_dims h1
  obtain ⟨b1, b2⟩ := growRows_some_dims h2
  exact ⟨b1.trans a1, by rw [b2, a2]⟩

theorem set_cell_some_dims {t t' : Table T} {v : T}
    {row col rowspan colspan : Nat} {res : Except Error (Option T)}
    (h : t.set_cell v row col rowspan colspan = some (res, t')) :
    t'.num_cols = max t.num_cols (col + colspan) ∧
      t'.num_rows = max t.num_rows (row + rowspan) := by
  unfold set_cell at h
  rw [Option.bind_eq_some] at h
  obtain ⟨t1, hg, h⟩ := h
  obtain ⟨g1, g2⟩ := grow_some_dims hg
  rw [Option.bind_eq_some] at h
  obtain ⟨⟨old, t2⟩, hr, h⟩ := h
  obtain ⟨r1, r2, _⟩ := replace_some_shape hr
  cases old with
  | Occupied cv ocs ors =>
      simp only [Option.bind_eq_some] at h
      obtain ⟨t3, h3, t4, h4, t5, h5, t6, h6, h⟩ := h
      cases h
      obtain ⟨a1, a2, _⟩ := setEach_some_shape h3
      obtain ⟨b1, b2, _⟩ := setEach_some_shape h4
      obtain ⟨c1, c2, _⟩ := setEach_some_shape h5
      obtain ⟨d1, d2, _⟩ := setEach_some_shape h6
      constructor
      · rw [d1, c1, b1, a1, r1, g1]
      · rw [d2, c2, b2, a2, r2, g2]
  | Empty =>
      simp only [Option.bind_eq_some] at h
      obtain ⟨t3, h3, t4, h4, h⟩ := h
      cases h
      obtain ⟨a1, a2, _⟩ := setEach_some_shape h3
      obtain ⟨b1, b2, _⟩ := setEach_some_shape h4
      constructor
      · rw [b1, a1, r1, g1]
      · rw [b2, a2, r2, g2]
  | Shadowed c r =>
      cases h
      exact ⟨r1.trans g1, r2.trans g2⟩

end Table

/-! ## Pointwise characterization of writes, growth and placement -/

namespace Table

variable {T U : Type}

theorem cell_index_lt {t : Table T} {r c : Nat}
    (hlen : t.num_cols * t.num_rows = t.cells.length)
    (hr : r < t.num_rows) (hc : c < t.num_cols) :
    t.cell_index r c < t.cells.length := by
  unfold cell_index
  calc t.num_cols * r + c < t.num_cols * (r + 1) := by
        rw [Nat.mul_succ]; omega
    _ ≤ t.num_cols * t.num_rows := Nat.mul_le_mul_left _ hr
    _ = t.cells.length := hlen

theorem rowmajor_inj {nc r c row col : Nat} (hc : c < nc) (hcol : col < nc)
    (h : nc * r + c = nc * row + col) : r = row ∧ c = col := by
  have hnc : 0 < nc := Nat.lt_of_le_of_lt (Nat.zero_le c) hc
  have h1 : (nc * r + c) / nc = (nc * row + col) / nc := by rw [h]
  rw [Nat.mul_add_div hnc, Nat.mul_add_div hnc, Nat.div_eq_of_lt hc,
    Nat.div_eq_of_lt hcol] at h1
  have hrr : r = row := by omega
  subst hrr
  exact ⟨rfl, by omega⟩

theorem mem_rangeL {x a b : Nat} : x ∈ rangeL a b ↔ a ≤ x ∧ x < b := by
  unfold rangeL
  rw [List.mem_map]
  constructor
  · rintro ⟨i, hi, rfl⟩
    rw [List.mem_range] at hi
    omega
  · rintro ⟨h1, h2⟩
    exact ⟨x - a, by rw [List.mem_range]; omega, by omega⟩

theorem mem_colRowPairs {p : Nat × Nat} {cs rs : List Nat} :
    p ∈ colRowPairs cs rs ↔ p.2 ∈ cs ∧ p.1 ∈ rs := by
  unfold colRowPairs
  rw [List.mem_flatMap]
  constructor
  · rintro ⟨c, hc, hp⟩
    rw [List.mem_map] at hp
    obtain ⟨r, hr, rfl⟩ := hp
    exact ⟨hc, hr⟩
  · rintro ⟨hc, hr⟩
    exact ⟨p.2, hc, by rw [List.mem_map]; exact ⟨p.1, hr, rfl⟩⟩

theorem set_some_getElem? {t t' : Table T} {row col : Nat} {v : Cell T}
    (h : t.set row col v = some t') (i : Nat) :
    t'.cells[i]? =
      if t.cell_index row col = i then some v else t.cells[i]? := by
  unfold set at h
  by_cases hlt : t.cell_index row col < t.cells.length
  · rw [if_pos hlt] at h
    cases h
    by_cases he : t.cell_index row col = i
    · subst he
      rw [if_pos rfl]
      exact List.getElem?_set_eq_of_lt v hlt
    · rw [if_neg he]
      exact List.getElem?_set_ne he
  · rw [if_neg hlt] at h
    cases h

theorem setEach_some_getElem? {v : Cell T} :
    ∀ {ps : List (Nat × Nat)} {t t' : Table T},
      setEach t ps v = some t' → ∀ i,
      t'.cells[i]? =
        if ∃ p ∈ ps, t.cell_index p.1 p.2 = i then some v
        else t.cells[i]? := by
  intro ps
  induction ps with
  | nil =>
      intro t t' h i
      cases h
      simp
  | cons q rest ih =>
      intro t t' h i
      obtain ⟨r, c⟩ := q
      simp only [setEach, Option.bind_eq_some] at h
      obtain ⟨t1, h1, h2⟩ := h
      have hnc : t1.num_cols = t.num_cols := (set_some_shape h1).1
      have hidx : ∀ p : Nat × Nat, t1.cell_index p.1 p.2 =
          t.cell_index p.1 p.2 := by
        intro p
        unfold cell_index
        rw [hnc]
      have hih := ih h2 i
      by_cases hex : ∃ p ∈ rest, t.cell_index p.1 p.2 = i
      · rw [if_pos]
        · rw [hih, if_pos]
          obtain ⟨p, hp, he⟩ := hex
          exact ⟨p, hp, by rw [hidx]; exact he⟩
        · obtain ⟨p, hp, he⟩ := hex
          exact ⟨p, List.mem_cons_of_mem _ hp, he⟩
      · have hih2 : t'.cells[i]? = t1.cells[i]? := by
          rw [hih, if_neg]
          intro hcon
          obtain ⟨p, hp, he⟩ := hcon
          exact hex ⟨p, hp, by rw [hidx] at he; exact he⟩
        rw [hih2, set_some_getElem? h1 i]
        by_cases hdx : t.cell_index r c = i
        · rw [if_pos hdx, if_pos]
          exact ⟨(r, c), List.mem_cons_self _ _, hdx⟩
        · rw [if_neg hdx, if_neg]
          intro hcon
          obtain ⟨p, hp, he⟩ := hcon
          rcases List.mem_cons.mp hp with hph | hpr
          · subst hph; exact hdx he
          · exact hex ⟨p, hpr, he⟩

theorem setEach_isSome_of_bounds {v : Cell T} :
    ∀ {ps : List (Nat × Nat)} {t : Table T},
      (∀ p ∈ ps, t.cell_index p.1 p.2 < t.cells.length) →
      ∃ t', setEach t ps v = some t' := by
  intro ps
  induction ps with
  | nil => intro t _; exact ⟨t, rfl⟩
  | cons q rest ih =>
      intro t hb
      obtain ⟨r, c⟩ := q
      have hhead : t.cell_index r c < t.cells.length :=
        hb (r, c) (List.mem_cons_self _ _)
      have hset : t.set r c v =
          some { t with cells := t.cells.set (t.cell_index r c) v } := by
        unfold set
        rw [if_pos hhead]
      obtain ⟨t1, ht1⟩ : ∃ t1, t.set r c v = some t1 := ⟨_, hset⟩
      have hnc : t1.num_cols = t.num_cols := (set_some_shape ht1).1
      have hlen : t1.cells.length = t.cells.length := (set_some_shape ht1).2.2
      have hbrest : ∀ p ∈ rest, t1.cell_index p.1 p.2 < t1.cells.length := by
        intro p hp
        unfold cell_index
        rw [hnc, hlen]
        exact hb p (List.mem_cons_of_mem _ hp)
      obtain ⟨t', ht'⟩ := ih hbrest
      exact ⟨t', by
        simp only [setEach, Option.bind_eq_some]
        exact ⟨t1, ht1, ht'⟩⟩

theorem growColsLoop_length {oldc newc : Nat} (hle : oldc ≤ newc) :
    ∀ (n : Nat) (cells : List (Cell T)), cells.length = n * oldc →
      (growColsLoop cells n oldc newc).length = n * newc := by
  intro n
  induction n with
  | zero => intro cells _; simp [growColsLoop]
  | succ n ih =>
      intro cells h
      rw [Nat.succ_mul] at h
      simp only [growColsLoop, List.length_append, List.length_take,
        List.length_replicate]
      rw [ih (cells.drop oldc) (by rw [List.length_drop]; omega)]
      rw [Nat.succ_mul]
      omega

theorem growColsLoop_getElem? {oldc newc : Nat} (hle : oldc ≤ newc) :
    ∀ (n : Nat) (cells : List (Cell T)), cells.length = n * oldc →
      ∀ r c, r < n → c < newc →
        (growColsLoop cells n oldc newc)[newc * r + c]? =
          if c < oldc then cells[oldc * r + c]? else some Cell.Empty := by
  intro n
  induction n with
  | zero => intro cells _ r c hr _; exact absurd hr (Nat.not_lt_zero r)
  | succ n ih =>
      intro cells h r c hr hc
      rw [Nat.succ_mul] at h
      have htake : (cells.take oldc).length = oldc := by
        rw [List.length_take]; omega
      simp only [growColsLoop, List.append_assoc]
      cases r with
      | zero =>
          rw [Nat.mul_zero, Nat.zero_add]
          rw [List.getElem?_append]
          by_cases hco : c < oldc
          · rw [if_pos (by omega : c < (cells.take oldc).length)]
            rw [List.getElem?_take, if_pos hco]
            rw [if_pos hco, Nat.mul_zero, Nat.zero_add]
          · rw [if_neg (by omega : ¬ c < (cells.take oldc).length)]
            rw [htake, List.getElem?_append]
            rw [if_pos (by
              rw [List.length_replicate]; omega :
                c - oldc < (List.replicate (newc - oldc)
                  (Cell.Empty : Cell T)).length)]
            rw [List.getElem?_replicate, if_pos (by omega), if_neg hco]
      | succ r =>
          have hidx : newc * (r + 1) + c = newc + (newc * r + c) := by
            rw [Nat.mul_succ]; omega
          rw [hidx]
          rw [List.getElem?_append,
            if_neg (by rw [htake]; omega : ¬ newc + (newc * r + c) <
              (cells.take oldc).length)]
          rw [htake, List.getElem?_append,
            if_neg (by rw [List.length_replicate]; omega :
              ¬ newc + (newc * r + c) - oldc <
                (List.replicate (newc - oldc)
                  (Cell.Empty : Cell T)).length)]
          rw [List.length_replicate]
          have hidx2 : newc + (newc * r + c) - oldc - (newc - oldc) =
              newc * r + c := by omega
          rw [hidx2]
          rw [ih (cells.drop oldc) (by rw [List.length_drop]; omega) r c
            (by omega) hc]
          by_cases hco : c < oldc
          · rw [if_pos hco, if_pos hco]
            rw [List.getElem?_drop]
            congr 1
            rw [Nat.mul_succ]
            omega
          · rw [if_neg hco, if_neg hco]

theorem growCols_spec {t : Table T} (cols : Nat)
    (hlen : t.num_cols * t.num_rows = t.cells.length) :
    ∃ t1, growCols t cols = some t1 ∧
      t1.num_rows = t.num_rows ∧ t1.num_cols = max t.num_cols cols ∧
      t1.num_cols * t1.num_rows = t1.cells.length ∧
      ∀ r c, r < t1.num_rows → c < t1.num_cols →
        t1.cells[t1.num_cols * r + c]? =
          if c < t.num_cols then t.cells[t.num_cols * r + c]?
          else some Cell.Empty := by
  by_cases hgt : cols > t.num_cols
  · have hlc : t.cells.length = t.num_rows * t.num_cols := by
      rw [Nat.mul_comm] at hlen; omega
    have hL := growColsLoop_length (Nat.le_of_lt hgt) t.num_rows t.cells hlc
    refine ⟨Table.mk cols t.num_rows
      (growColsLoop t.cells t.num_rows t.num_cols cols), ?_, rfl,
      ?_, ?_, ?_⟩
    · unfold growCols
      rw [if_pos hgt]
      unfold checkShape
      rw [if_pos (by rw [hL, Nat.mul_comm])]
    · show cols = max t.num_cols cols
      omega
    · show cols * t.num_rows = _
      rw [hL, Nat.mul_comm]
    · intro r c hr hc
      exact growColsLoop_getElem? (Nat.le_of_lt hgt) t.num_rows t.cells hlc
        r c hr hc
  · refine ⟨t, ?_, rfl, by omega, hlen, ?_⟩
    · unfold growCols
      rw [if_neg hgt]
    · intro r c hr hc
      rw [if_pos hc]

theorem growRows_spec {t : Table T} (rows : Nat)
    (hlen : t.num_cols * t.num_rows = t.cells.length) :
    ∃ t2, growRows t rows = some t2 ∧
      t2.num_cols = t.num_cols ∧ t2.num_rows = max t.num_rows rows ∧
      t2.num_cols * t2.num_rows = t2.cells.length ∧
      ∀ r c, r < t2.num_rows → c < t2.num_cols →
        t2.cells[t2.num_cols * r + c]? =
          if r < t.num_rows then t.cells[t.num_cols * r + c]?
          else some Cell.Empty := by
  by_cases hgt : rows > t.num_rows
  · have hdist : t.num_cols * rows =
        t.num_cols * t.num_rows + t.num_cols * (rows - t.num_rows) := by
      rw [← Nat.mul_add]
      congr 1
      omega
    have hrep : ((rows - t.num_rows) * t.num_cols) =
        t.num_cols * (rows - t.num_rows) := Nat.mul_comm _ _
    refine ⟨Table.mk t.num_cols rows
      (t.cells ++ List.replicate
        ((rows - t.num_rows) * t.num_cols) Cell.Empty), ?_, rfl,
      ?_, ?_, ?_⟩
    · unfold growRows
      rw [if_pos hgt]
      unfold checkShape
      rw [if_pos (by
        show t.num_cols * rows = _
        rw [List.length_append, List.length_replicate, hrep, hdist, hlen])]
    · show rows = max t.num_rows rows
      omega
    · show t.num_cols * rows = _
      rw [List.length_append, List.length_replicate, hrep, hdist, hlen]
    · intro r c hr hc
      have hr2 : r < rows := hr
      have hc2 : c < t.num_cols := hc
      show (t.cells ++ _)[t.num_cols * r + c]? = _
      rw [List.getElem?_append]
      by_cases hrn : r < t.num_rows
      · rw [if_pos (by
          have hx := cell_index_lt hlen hrn hc2
          unfold cell_index at hx
          omega : t.num_cols * r + c < t.cells.length)]
        rw [if_pos hrn]
      · have h1 : t.num_cols * t.num_rows ≤ t.num_cols * r :=
          Nat.mul_le_mul_left _ (by omega)
        rw [if_neg (by omega : ¬ t.num_cols * r + c < t.cells.length)]
        rw [List.getElem?_replicate]
        have hlt2 : t.num_cols * r + c - t.cells.length <
            (rows - t.num_rows) * t.num_cols := by
          have h2 : t.num_cols * (r + 1) ≤ t.num_cols * rows :=
            Nat.mul_le_mul_left _ (by omega)
          rw [Nat.mul_succ] at h2
          omega
        rw [if_pos hlt2, if_neg hrn]
  · refine ⟨t, ?_, rfl, by omega, hlen, ?_⟩
    · unfold growRows
      rw [if_neg hgt]
    · intro r c hr hc
      rw [if_pos (by omega : r < t.num_rows)]

theorem grow_spec {t : Table T} (rows cols : Nat)
    (hlen : t.num_cols * t.num_rows = t.cells.length) :
    ∃ tg, grow t rows cols = some tg ∧
      tg.num_cols = max t.num_cols cols ∧
      tg.num_rows = max t.num_rows rows ∧
      tg.num_cols * tg.num_rows = tg.cells.length ∧
      ∀ r c, r < tg.num_rows → c < tg.num_cols →
        tg.cells[tg.num_cols * r + c]? =
          if r < t.num_rows ∧ c < t.num_cols then
            t.cells[t.num_cols * r + c]?
          else some Cell.Empty := by
  obtain ⟨t1, h1, e1, e2, e3, hget1⟩ := growCols_spec cols hlen
  obtain ⟨t2, h2, f1, f2, f3, hget2⟩ := growRows_spec rows e3
  refine ⟨t2, ?_, by rw [f1, e2], by rw [f2, e1], f3, ?_⟩
  · unfold grow
    rw [h1, Option.some_bind, h2]
  · intro r c hr hc
    have hc1 : c < t1.num_cols := by rw [← f1]; exact hc
    rw [hget2 r c hr hc]
    by_cases hrn : r < t1.num_rows
    · rw [if_pos hrn]
      rw [hget1 r c hrn hc1]
      rw [e1] at hrn
      by_cases hcn : c < t.num_cols
      · rw [if_pos hcn, if_pos ⟨hrn, hcn⟩]
      · rw [if_neg hcn, if_neg (by tauto)]
    · rw [if_neg hrn]
      rw [e1] at hrn
      rw [if_neg (by tauto)]

end Table

/-! ## Claim theorems (concrete refutations and simple claims) -/

open Table

/-- C1: the claim says a conflicting placement returns
`Err(Shadowed{col, row})` of the other anchor *and leaves the grid
cell-for-cell unchanged*.  The error and its coordinates are right, but the
source swaps the new `Occupied` cell in at the anchor *before* inspecting
the old cell and never restores it: after placing `"B"` as a 2×2 span at
`(0,0)` on a 3×4 grid and then attempting `"D"` at `(0,1,1,1)`, the call
returns `Err(Shadowed{col:0,row:0})` yet position `(0,1)` now holds
`Occupied{"D",1,1}` instead of its previous `Shadowed{0,0}`. -/
theorem claim_C1_conflict_mutates_grid :
    (((Table.empty 3 4 : Table String).set_cell "B" 0 0 2 2).bind
        (fun p => p.2.set_cell "D" 0 1 1 1)) =
      some (Except.error (Error.Shadowed 0 0),
        { num_cols := 4, num_rows := 3,
          cells := [Cell.Occupied "B" 2 2, Cell.Occupied "D" 1 1,
            Cell.Empty, Cell.Empty,
            Cell.Shadowed 0 0, Cell.Shadowed 0 0, Cell.Empty, Cell.Empty,
            Cell.Empty, Cell.Empty, Cell.Empty, Cell.Empty] }) := rfl

/-- C2: the claim says overwriting an `Occupied` anchor leaves the anchor
`Occupied{value, colspan, rowspan}` and returns `Ok(Some(old_value))`.  The
return value is right, but the second shadow loop of the `Occupied` branch
runs over `col .. col + colspan` (not `col + 1 ..`), so it overwrites the
anchor itself: after placing `"B"` as 2×2 at `(0,0)` and then `"C"` at
`(0,0,1,1)`, the call returns `Ok(Some "B")` yet the anchor holds
`Shadowed{0,0}` — a shadow pointing at itself — and `"C"` is lost. -/
theorem claim_C2_overwrite_destroys_anchor :
    (((Table.empty 3 4 : Table String).set_cell "B" 0 0 2 2).bind
        (fun p => p.2.set_cell "C" 0 0 1 1)) =
      some (Except.ok (some "B"),
        { num_cols := 4, num_rows := 3,
          cells := [Cell.Shadowed 0 0, Cell.Empty, Cell.Empty, Cell.Empty,
            Cell.Empty, Cell.Empty, Cell.Empty, Cell.Empty,
            Cell.Empty, Cell.Empty, Cell.Empty, Cell.Empty] }) := rfl

/-- C5: the claim says `get_cell_value_mut(row, col)` returns a value only
when the cell at `(row, col)` is `Occupied` and returns `None` whenever
`col ≥ num_cols`.  But the flat index `num_cols * row + col` is not checked
against the column bound, so an out-of-range column aliases into the next
row: on a 2×1 grid whose position `(1,0)` holds `42`, the call
`get_cell_value_mut(0, 1)` — with `col = 1 ≥ num_cols = 1` — returns
`Some 42`, the value of the *other* position `(1,0)`. -/
theorem claim_C5_out_of_bounds_alias :
    (((Table.empty 2 1 : Table Nat).set_cell 42 1 0 1 1).map
        (fun p => p.2.get_cell_value_mut 0 1)) = some (some 42) ∧
      (Table.empty 2 1 : Table Nat).num_cols = 1 := by
  constructor
  · rfl
  · rfl

/-- C9: `map` with the identity function returns a structurally identical
grid: the same dimensions and, at every position, the same cell variant
with the same value and spans (here stated as equality of tables). -/
theorem claim_C9_map_identity (T : Type) (t : Table T) :
    t.map (fun x => x) = t := by
  obtain ⟨nc, nr, cells⟩ := t
  unfold Table.map
  congr 1
  induction cells with
  | nil => rfl
  | cons c rest ih =>
      cases c <;> simp only [List.map_cons] <;> rw [ih]

/-- C10: a zero span on the public placement path panics: from `new()`,
`set_cell(value, row = 0, col = 0, rowspan = 1, colspan = 0)` computes a
zero-width target rectangle, grows the grid to 1×0 (one row, no columns,
empty storage), and then `replace` at `(0,0)` indexes outside storage and
panics (modelled as `none`) instead of returning any `Result`. -/
theorem claim_C10_zero_span_panics :
    (Table.new : Table Nat).set_cell 0 0 0 1 0 = none ∧
      grow (Table.new : Table Nat) 1 0 =
        some { num_cols := 0, num_rows := 1, cells := [] } := ⟨rfl, rfl⟩

/-- C3: a fresh placement on an `Empty` anchor (after growth): the grid
grows (columns then rows, new slots `Empty`) so the target rectangle fits,
the anchor receives `Occupied{value, colspan, rowspan}`, every other
position of the rectangle becomes `Shadowed{col, row}`, every position
outside the rectangle keeps its previous contents (`Empty` for grown
slots), and the call returns `Ok(None)`. -/
theorem claim_C3_fresh_placement {T : Type} (t : Table T) (v : T)
    (row col rowspan colspan : Nat)
    (hlen : t.num_cols * t.num_rows = t.cells.length)
    (hrs : 1 ≤ rowspan) (hcs : 1 ≤ colspan)
    (hemp : ∀ tg, grow t (row + rowspan) (col + colspan) = some tg →
      tg.cells[tg.cell_index row col]? = some Cell.Empty) :
    ∃ t', t.set_cell v row col rowspan colspan =
        some (Except.ok none, t') ∧
      t'.num_cols = max t.num_cols (col + colspan) ∧
      t'.num_rows = max t.num_rows (row + rowspan) ∧
      t'.num_cols * t'.num_rows = t'.cells.length ∧
      ∀ r c, r < t'.num_rows → c < t'.num_cols →
        t'.cells[t'.num_cols * r + c]? =
          if r = row ∧ c = col then some (Cell.Occupied v colspan rowspan)
          else if row ≤ r ∧ r < row + rowspan ∧ col ≤ c ∧
              c < col + colspan then some (Cell.Shadowed col row)
          else if r < t.num_rows ∧ c < t.num_cols then
            t.cells[t.num_cols * r + c]?
          else some Cell.Empty := by
  obtain ⟨tg, hg, g1, g2, g3, hgget⟩ := grow_spec (row + rowspan)
    (col + colspan) hlen
  have hrowlt : row < tg.num_rows := by rw [g2]; omega
  have hcollt : col < tg.num_cols := by rw [g1]; omega
  have hrectr : row + rowspan ≤ tg.num_rows := by rw [g2]; omega
  have hrectc : col + colspan ≤ tg.num_cols := by rw [g1]; omega
  have hanchor := hemp tg hg
  have hrep : tg.replace row col (Cell.Occupied v colspan rowspan) =
      some (Cell.Empty, Table.mk tg.num_cols tg.num_rows
        (tg.cells.set (tg.cell_index row col)
          (Cell.Occupied v colspan rowspan))) := by
    unfold replace
    rw [hanchor]
  obtain ⟨t2, hrep2, ht2eq⟩ : ∃ t2,
      tg.replace row col (Cell.Occupied v colspan rowspan) =
        some (Cell.Empty, t2) ∧
      t2 = Table.mk tg.num_cols tg.num_rows
        (tg.cells.set (tg.cell_index row col)
          (Cell.Occupied v colspan rowspan)) := ⟨_, hrep, rfl⟩
  obtain ⟨p1, p2, p3⟩ := replace_some_shape hrep2
  have ht2shape : t2.num_cols * t2.num_rows = t2.cells.length := by
    rw [p1, p2, p3]; exact g3
  have ht2get : ∀ i, t2.cells[i]? =
      if tg.cell_index row col = i
      then some (Cell.Occupied v colspan rowspan) else tg.cells[i]? := by
    intro i
    subst ht2eq
    by_cases he : tg.cell_index row col = i
    · subst he
      rw [if_pos rfl]
      exact List.getElem?_set_eq_of_lt _ (cell_index_lt g3 hrowlt hcollt)
    · rw [if_neg he]
      exact List.getElem?_set_ne he
  have hb1 : ∀ p ∈ (rangeL (row + 1) (row + rowspan)).map
      (fun r => (r, col)), t2.cell_index p.1 p.2 < t2.cells.length := by
    intro p hp
    rw [List.mem_map] at hp
    obtain ⟨rr, hrr, rfl⟩ := hp
    rw [mem_rangeL] at hrr
    have : rr < t2.num_rows := by rw [p2]; omega
    exact cell_index_lt ht2shape this (by rw [p1]; exact hcollt)
  obtain ⟨t3, h3⟩ := setEach_isSome_of_bounds hb1
  obtain ⟨q1, q2, q3⟩ := setEach_some_shape h3
  have ht3shape : t3.num_cols * t3.num_rows = t3.cells.length := by
    rw [q1, q2, q3]; exact ht2shape
  have hb2 : ∀ p ∈ colRowPairs (rangeL (col + 1) (col + colspan))
      (rangeL row (row + rowspan)),
      t3.cell_index p.1 p.2 < t3.cells.length := by
    intro p hp
    rw [mem_colRowPairs] at hp
    obtain ⟨hpc, hpr⟩ := hp
    rw [mem_rangeL] at hpc hpr
    exact cell_index_lt ht3shape (by rw [q2, p2]; omega)
      (by rw [q1, p1]; rw [g1]; omega)
  obtain ⟨t4, h4⟩ := setEach_isSome_of_bounds hb2
  obtain ⟨s1, s2, s3⟩ := setEach_some_shape h4
  have hsc : t.set_cell v row col rowspan colspan =
      some (Except.ok none, t4) := by
    unfold set_cell
    rw [hg, Option.some_bind, hrep2, Option.some_bind]
    show (setEach t2 _ _).bind _ = _
    rw [h3, Option.some_bind, h4, Option.some_bind]
  refine ⟨t4, hsc, by rw [s1, q1, p1, g1], by rw [s2, q2, p2, g2],
    by rw [s1, s2, s3, q1, q2, q3]; exact ht2shape, ?_⟩
  intro r c hrb hcb
  have hr4 : r < tg.num_rows := by rw [s2, q2, p2] at hrb; exact hrb
  have hc4 : c < tg.num_cols := by rw [s1, q1, p1] at hcb; exact hcb
  have hnc4 : t4.num_cols = tg.num_cols := by rw [s1, q1, p1]
  have i4 : t4.num_cols * r + c = tg.num_cols * r + c := by rw [hnc4]
  rw [i4]
  have hget4 := setEach_some_getElem? h4 (tg.num_cols * r + c)
  have hget3 := setEach_some_getElem? h3 (tg.num_cols * r + c)
  simp only [cell_index, q1, p1] at hget4 hget3
  rw [hget4, hget3, ht2get]
  have hcond2 : (∃ p ∈ colRowPairs (rangeL (col + 1) (col + colspan))
      (rangeL row (row + rowspan)),
      tg.num_cols * p.1 + p.2 = tg.num_cols * r + c) ↔
      (col + 1 ≤ c ∧ c < col + colspan ∧ row ≤ r ∧ r < row + rowspan) := by
    constructor
    · rintro ⟨p, hp, he⟩
      rw [mem_colRowPairs] at hp
      obtain ⟨hpc, hpr⟩ := hp
      rw [mem_rangeL] at hpc hpr
      obtain ⟨er, ec⟩ := rowmajor_inj (by omega : p.2 < tg.num_cols) hc4 he
      omega
    · rintro ⟨h1, h2, h3x, h4x⟩
      refine ⟨(r, c), ?_, rfl⟩
      rw [mem_colRowPairs]
      exact ⟨mem_rangeL.mpr ⟨h1, h2⟩, mem_rangeL.mpr ⟨h3x, h4x⟩⟩
  have hcond1 : (∃ p ∈ (rangeL (row + 1) (row + rowspan)).map
      (fun r => (r, col)),
      tg.num_cols * p.1 + p.2 = tg.num_cols * r + c) ↔
      (row + 1 ≤ r ∧ r < row + rowspan ∧ c = col) := by
    constructor
    · rintro ⟨p, hp, he⟩
      rw [List.mem_map] at hp
      obtain ⟨rr, hrr, rfl⟩ := hp
      rw [mem_rangeL] at hrr
      obtain ⟨er, ec⟩ := rowmajor_inj hcollt hc4 he
      omega
    · rintro ⟨h1, h2, h3x⟩
      subst h3x
      refine ⟨(r, c), ?_, rfl⟩
      rw [List.mem_map]
      exact ⟨r, mem_rangeL.mpr ⟨h1, h2⟩, rfl⟩
  have hcond0 : (tg.cell_index row col = tg.num_cols * r + c) ↔
      (r = row ∧ c = col) := by
    unfold cell_index
    constructor
    · intro he
      obtain ⟨er, ec⟩ := rowmajor_inj hcollt hc4 he
      omega
    · rintro ⟨rfl, rfl⟩
      rfl
  rw [hgget r c hr4 hc4]
  simp only [hcond2, hcond1, hcond0]
  split_ifs <;> first | rfl | (exfalso; omega)

/-- C3 witness: the theorem applied to the concrete scenario — from
`empty(0,0)`, placing `"A"` at `(row=2, col=3, rowspan=1, colspan=1)`
grows the grid to 3×4 with `(2,3)` occupied and everything else empty. -/
theorem claim_C3_witness :
    ((Table.empty 0 0 : Table String).num_cols *
        (Table.empty 0 0 : Table String).num_rows =
        (Table.empty 0 0 : Table String).cells.length) ∧
      (1 : Nat) ≤ 1 ∧
      (∃ t', (Table.empty 0 0 : Table String).set_cell "A" 2 3 1 1 =
          some (Except.ok none, t') ∧
        t'.num_cols = max (Table.empty 0 0 : Table String).num_cols (3 + 1) ∧
        t'.num_rows = max (Table.empty 0 0 : Table String).num_rows (2 + 1) ∧
        t'.num_cols * t'.num_rows = t'.cells.length ∧
        ∀ r c, r < t'.num_rows → c < t'.num_cols →
          t'.cells[t'.num_cols * r + c]? =
            if r = 2 ∧ c = 3 then some (Cell.Occupied "A" 1 1)
            else if 2 ≤ r ∧ r < 2 + 1 ∧ 3 ≤ c ∧ c < 3 + 1 then
              some (Cell.Shadowed 3 2)
            else if r < (Table.empty 0 0 : Table String).num_rows ∧
                c < (Table.empty 0 0 : Table String).num_cols then
              (Table.empty 0 0 : Table String).cells[
                (Table.empty 0 0 : Table String).num_cols * r + c]?
            else some Cell.Empty) :=
  ⟨rfl, Nat.le_refl 1,
    claim_C3_fresh_placement (Table.empty 0 0) "A" 2 3 1 1 rfl
      (Nat.le_refl 1) (Nat.le_refl 1)
      (fun tg h => by
        have h2 := Option.some.inj h
        rw [← h2]
        rfl)⟩

/-- C4 counterexample: the claim quantifies over *every* table, but
`flat_map` enumerates cells through `chunks_exact(num_cols)`, which panics
when `num_cols = 0`; on the 0×0 table built by `new()` the call panics
(modelled as `none`) instead of returning a table. -/
theorem claim_C4_counterexample_zero_cols :
    (Table.new : Table Nat).flat_map (fun x => some x) = none := rfl

/-! ## Shape-invariant preservation and reachability -/

namespace Table

variable {T : Type}

theorem growCols_some_shape {t t' : Table T} {cols : Nat}
    (hlen : t.num_cols * t.num_rows = t.cells.length)
    (h : growCols t cols = some t') :
    t'.num_cols * t'.num_rows = t'.cells.length := by
  unfold growCols at h
  split at h
  · obtain ⟨he, hs⟩ := checkShape_some h
    subst he
    exact hs
  · cases h
    exact hlen

theorem growRows_some_shape {t t' : Table T} {rows : Nat}
    (hlen : t.num_cols * t.num_rows = t.cells.length)
    (h : growRows t rows = some t') :
    t'.num_cols * t'.num_rows = t'.cells.length := by
  unfold growRows at h
  split at h
  · obtain ⟨he, hs⟩ := checkShape_some h
    subst he
    exact hs
  · cases h
    exact hlen

theorem grow_some_shape {t t' : Table T} {rows cols : Nat}
    (hlen : t.num_cols * t.num_rows = t.cells.length)
    (h : grow t rows cols = some t') :
    t'.num_cols * t'.num_rows = t'.cells.length := by
  unfold grow at h
  rw [Option.bind_eq_some] at h
  obtain ⟨t1, h1, h2⟩ := h
  exact growRows_some_shape (growCols_some_shape hlen h1) h2

theorem set_cell_some_shape {t t' : Table T} {v : T}
    {row col rowspan colspan : Nat} {res : Except Error (Option T)}
    (hlen : t.num_cols * t.num_rows = t.cells.length)
    (h : t.set_cell v row col rowspan colspan = some (res, t')) :
    t'.num_cols * t'.num_rows = t'.cells.length := by
  unfold set_cell at h
  rw [Option.bind_eq_some] at h
  obtain ⟨t1, hg, h⟩ := h
  have hg' := grow_some_shape hlen hg
  rw [Option.bind_eq_some] at h
  obtain ⟨⟨old, t2⟩, hr, h⟩ := h
  obtain ⟨r1, r2, r3⟩ := replace_some_shape hr
  have h2 : t2.num_cols * t2.num_rows = t2.cells.length := by
    rw [r1, r2, r3]; exact hg'
  cases old with
  | Occupied cv ocs ors =>
      simp only [Option.bind_eq_some] at h
      obtain ⟨t3, h3, t4, h4, t5, h5, t6, h6, h⟩ := h
      cases h
      obtain ⟨a1, a2, a3⟩ := setEach_some_shape h3
      obtain ⟨b1, b2, b3⟩ := setEach_some_shape h4
      obtain ⟨c1, c2, c3⟩ := setEach_some_shape h5
      obtain ⟨d1, d2, d3⟩ := setEach_some_shape h6
      rw [d1, d2, d3, c1, c2, c3, b1, b2, b3, a1, a2, a3]
      exact h2
  | Empty =>
      simp only [Option.bind_eq_some] at h
      obtain ⟨t3, h3, t4, h4, h⟩ := h
      cases h
      obtain ⟨a1, a2, a3⟩ := setEach_some_shape h3
      obtain ⟨b1, b2, b3⟩ := setEach_some_shape h4
      rw [b1, b2, b3, a1, a2, a3]
      exact h2
  | Shadowed c r =>
      cases h
      exact h2

end Table

/-- C6: along every sequence of `set_cell` calls (spans ≥ 1) starting from
`new()` or `empty(rows, cols)`, the storage length equals
`num_rows * num_cols` after every call. -/
theorem claim_C6_shape_invariant {T : Type} (t : Table T) (h : Reach T t) :
    t.cells.length = t.num_rows * t.num_cols := by
  induction h with
  | new => rfl
  | empty rows cols => simp [Table.empty, Table.new]
  | step value row col rowspan colspan res hrs hcs hstep hre ih =>
      have := Table.set_cell_some_shape (by rw [Nat.mul_comm]; exact ih.symm)
        hstep
      rw [Nat.mul_comm] at this
      exact this.symm

/-- C6 witness: the shape invariant instantiated on the table reached from
`new()` by one successful placement of a 1×1 cell at `(0,0)`. -/
theorem claim_C6_witness :
    ({ num_cols := 1, num_rows := 1, cells := [Cell.Occupied (0 : Nat) 1 1] }
        : Table Nat).cells.length =
      ({ num_cols := 1, num_rows := 1,
          cells := [Cell.Occupied (0 : Nat) 1 1] } : Table Nat).num_rows *
        ({ num_cols := 1, num_rows := 1,
            cells := [Cell.Occupied (0 : Nat) 1 1] } : Table Nat).num_cols :=
  claim_C6_shape_invariant _
    (@Reach.step Nat Table.new
      { num_cols := 1, num_rows := 1, cells := [Cell.Occupied (0 : Nat) 1 1] }
      0 0 0 1 1 (Except.ok none) (by decide) (by decide) rfl Reach.new)

/-- C7: `set_cell` never shrinks the grid — after any successful call both
dimensions are at least their previous values — and a placement whose
target rectangle already fits within the current bounds leaves both
dimensions exactly unchanged. -/
theorem claim_C7_growth_monotonic {T : Type} {t t' : Table T} {v : T}
    {row col rowspan colspan : Nat} {res : Except Error (Option T)}
    (h : t.set_cell v row col rowspan colspan = some (res, t')) :
    t.num_rows ≤ t'.num_rows ∧ t.num_cols ≤ t'.num_cols ∧
      (row + rowspan ≤ t.num_rows → col + colspan ≤ t.num_cols →
        t'.num_rows = t.num_rows ∧ t'.num_cols = t.num_cols) := by
  obtain ⟨hc, hr⟩ := Table.set_cell_some_dims h
  refine ⟨?_, ?_, fun hfr hfc => ⟨?_, ?_⟩⟩ <;> omega

/-- C7 witness: monotonicity instantiated on placing a 2×2 span at `(0,0)`
of a 3×4 grid, a rectangle that already fits: the dimensions stay 3×4. -/
theorem claim_C7_witness :
    (3 : Nat) ≤ 3 ∧ (4 : Nat) ≤ 4 ∧
      ((0 + 2 ≤ 3 → 0 + 2 ≤ 4 → (3 : Nat) = 3 ∧ (4 : Nat) = 4)) := by
  have h := @claim_C7_growth_monotonic String (Table.empty 3 4)
    { num_cols := 4, num_rows := 3,
      cells := [Cell.Occupied "B" 2 2, Cell.Shadowed 0 0,
        Cell.Empty, Cell.Empty,
        Cell.Shadowed 0 0, Cell.Shadowed 0 0, Cell.Empty, Cell.Empty,
        Cell.Empty, Cell.Empty, Cell.Empty, Cell.Empty] }
    "B" 0 0 2 2 (Except.ok none) rfl
  exact h

/-! ## flat_map: enumeration and pointwise characterization -/

theorem flatMapGo_cons {T U : Type} (f : T → Option U) (row col : Nat)
    (cell : Cell T) (rest : List (Nat × Nat × Cell T))
    (D : List (Nat × Nat)) :
    Table.flatMapGo f ((row, col, cell) :: rest) D =
      flatMapOutCell f cell D ::
        Table.flatMapGo f rest (flatMapStep f (row, col, cell) D) := by
  cases cell with
  | Empty => rfl
  | Occupied v cs rs =>
      cases hf : f v with
      | some u => simp [Table.flatMapGo, flatMapOutCell, flatMapStep, hf]
      | none => simp [Table.flatMapGo, flatMapOutCell, flatMapStep, hf]
  | Shadowed c r => rfl

theorem flatMapGo_length {T U : Type} (f : T → Option U) :
    ∀ (l : List (Nat × Nat × Cell T)) (D : List (Nat × Nat)),
      (Table.flatMapGo f l D).length = l.length := by
  intro l
  induction l with
  | nil => intro D; rfl
  | cons p rest ih =>
      intro D
      obtain ⟨row, col, cell⟩ := p
      rw [flatMapGo_cons, List.length_cons, ih, List.length_cons]

theorem flatMapGo_getElem? {T U : Type} (f : T → Option U) :
    ∀ (l : List (Nat × Nat × Cell T)) (D : List (Nat × Nat)) (i : Nat)
      (p : Nat × Nat × Cell T), l[i]? = some p →
      (Table.flatMapGo f l D)[i]? =
        some (flatMapOutCell f p.2.2 (dropsAcc f (l.take i) D)) := by
  intro l
  induction l with
  | nil =>
      intro D i p hp
      simp at hp
  | cons q rest ih =>
      intro D i p hp
      obtain ⟨row, col, cell⟩ := q
      cases i with
      | zero =>
          rw [List.getElem?_cons_zero] at hp
          cases hp
          rw [flatMapGo_cons, List.getElem?_cons_zero]
          rfl
      | succ i =>
          rw [List.getElem?_cons_succ] at hp
          rw [flatMapGo_cons, List.getElem?_cons_succ]
          rw [ih _ i p hp]
          rw [List.take_succ_cons]
          rfl

theorem chunksGo_eq_chunksList {α : Type} {k : Nat} (hk : 0 < k) :
    ∀ (n : Nat) (l : List α), l.length = n * k →
      chunksGo l k = chunksList n k l := by
  intro n
  induction n with
  | zero =>
      intro l hlen
      rw [Nat.zero_mul] at hlen
      unfold chunksGo
      rw [dif_neg (by omega)]
      rfl
  | succ n ih =>
      intro l hlen
      rw [Nat.succ_mul] at hlen
      unfold chunksGo
      rw [dif_pos ⟨hk, by omega⟩]
      show _ = chunksList (n + 1) k l
      unfold chunksList
      rw [ih (l.drop k) (by rw [List.length_drop]; omega)]

theorem enumFlatten_cons {α : Type} (r0 : Nat) (ch : List α)
    (chs : List (List α)) :
    enumFlatten r0 (ch :: chs) =
      ch.enum.map (fun q => (r0, q.1, q.2)) ++ enumFlatten (r0 + 1) chs := by
  unfold enumFlatten
  rw [List.enumFrom_cons, List.flatMap_cons]

theorem enumFlatten_chunksList_length {α : Type} {k : Nat} :
    ∀ (n : Nat) (cells : List α) (r0 : Nat), cells.length = n * k →
      (enumFlatten r0 (chunksList n k cells)).length = n * k := by
  intro n
  induction n with
  | zero => intro cells r0 _; simp [enumFlatten, chunksList]
  | succ n ih =>
      intro cells r0 hlen
      rw [Nat.succ_mul] at hlen
      show (enumFlatten r0 (chunksList (n + 1) k cells)).length = _
      unfold chunksList
      rw [enumFlatten_cons, List.length_append, List.length_map,
        List.enum_length, List.length_take,
        ih (cells.drop k) (r0 + 1) (by rw [List.length_drop]; omega)]
      rw [Nat.succ_mul]
      omega

theorem enumFlatten_chunksList_getElem? {α : Type} {k : Nat} (hk : 0 < k) :
    ∀ (n : Nat) (cells : List α) (r0 i : Nat) (a : α),
      cells.length = n * k → cells[i]? = some a →
      (enumFlatten r0 (chunksList n k cells))[i]? =
        some (r0 + i / k, i % k, a) := by
  intro n
  induction n with
  | zero =>
      intro cells r0 i a hlen hget
      have hi : i < cells.length := (List.getElem?_eq_some.mp hget).1
      rw [hlen, Nat.zero_mul] at hi
      exact absurd hi (Nat.not_lt_zero i)
  | succ n ih =>
      intro cells r0 i a hlen hget
      rw [Nat.succ_mul] at hlen
      have hi : i < cells.length := (List.getElem?_eq_some.mp hget).1
      have htake : (cells.take k).length = k := by
        rw [List.length_take]; omega
      show (enumFlatten r0 (chunksList (n + 1) k cells))[i]? = _
      unfold chunksList
      rw [enumFlatten_cons, List.getElem?_append]
      have hinlen : ((cells.take k).enum.map
          (fun q => (r0, q.1, q.2))).length = k := by
        rw [List.length_map, List.enum_length, htake]
      by_cases hik : i < k
      · rw [if_pos (by rw [hinlen]; exact hik)]
        rw [List.getElem?_map, List.getElem?_enum, List.getElem?_take,
          if_pos hik, hget]
        simp only [Option.map_some']
        rw [Nat.div_eq_of_lt hik, Nat.mod_eq_of_lt hik]
        rfl
      · rw [if_neg (by rw [hinlen]; exact hik)]
        rw [hinlen]
        have hdrop : (cells.drop k)[i - k]? = some a := by
          rw [List.getElem?_drop, show k + (i - k) = i by omega, hget]
        rw [ih (cells.drop k) (r0 + 1) (i - k) a
          (by rw [List.length_drop]; omega) hdrop]
        have hdiv := Nat.add_div_right (i - k) hk
        rw [Nat.sub_add_cancel (by omega : k ≤ i)] at hdiv
        have hmod := Nat.add_mod_right (i - k) k
        rw [Nat.sub_add_cancel (by omega : k ≤ i)] at hmod
        have h1 : r0 + 1 + (i - k) / k = r0 + i / k := by omega
        have h2 : (i - k) % k = i % k := hmod.symm
        rw [h1, h2]

theorem dropsAcc_append {T U : Type} (f : T → Option U) :
    ∀ (l1 l2 : List (Nat × Nat × Cell T)) (D : List (Nat × Nat)),
      dropsAcc f (l1 ++ l2) D = dropsAcc f l2 (dropsAcc f l1 D) := by
  intro l1
  induction l1 with
  | nil => intro l2 D; rfl
  | cons p rest ih =>
      intro l2 D
      rw [List.cons_append]
      show dropsAcc f (rest ++ l2) (flatMapStep f p D) = _
      rw [ih]
      rfl

theorem droppedBefore_succ {T U : Type} (f : T → Option U) (k : Nat)
    (cells : List (Cell T)) (i : Nat) :
    droppedBefore f k cells (i + 1) =
      (match cells[i]? with
       | some (Cell.Occupied v cs rs) =>
           (match f v with
            | some _ => droppedBefore f k cells i
            | none =>
                if cs ≠ 1 ∧ rs ≠ 1 then
                  (i % k, i / k) :: droppedBefore f k cells i
                else droppedBefore f k cells i)
       | _ => droppedBefore f k cells i) := rfl

theorem dropsAcc_take_eq_droppedBefore {T U : Type} (f : T → Option U)
    {k : Nat} (hk : 0 < k) (cells : List (Cell T)) (n : Nat)
    (hlen : cells.length = n * k) :
    ∀ i, i ≤ cells.length →
      dropsAcc f ((enumFlatten 0 (chunksList n k cells)).take i) [] =
        droppedBefore f k cells i := by
  intro i
  induction i with
  | zero => intro _; rfl
  | succ i ih =>
      intro hle
      have hi : i < cells.length := by omega
      obtain ⟨cl, hcl⟩ : ∃ cl, cells[i]? = some cl :=
        ⟨cells[i], List.getElem?_eq_getElem hi⟩
      have hEi : (enumFlatten 0 (chunksList n k cells))[i]? =
          some (i / k, i % k, cl) := by
        have := enumFlatten_chunksList_getElem? hk n cells 0 i cl hlen hcl
        rw [Nat.zero_add] at this
        exact this
      rw [List.take_succ, hEi]
      show dropsAcc f (_ ++ [(i / k, i % k, cl)]) [] = _
      rw [dropsAcc_append, ih (by omega)]
      rw [droppedBefore_succ f k cells i, hcl]
      cases cl with
      | Empty => rfl
      | Occupied v cs rs =>
          cases hf : f v with
          | some u => simp [dropsAcc, flatMapStep, hf]
          | none => simp [dropsAcc, flatMapStep, hf]
      | Shadowed c r => rfl

/-- C4 (amended): on every table whose storage length matches its
dimensions and whose `num_cols` is nonzero — `flat_map` panics through
`chunks_exact(0)` on zero-column tables — `flat_map(f)` returns a table of
the same `num_rows` and `num_cols` in which each `Empty` cell stays
`Empty`; each `Occupied{v, colspan, rowspan}` becomes
`Occupied{f(v).unwrap, colspan, rowspan}` when `f` yields a value and
`Empty` otherwise, the anchor recorded as dropped only when `rowspan ≠ 1`
and `colspan ≠ 1` simultaneously; and each `Shadowed{col, row}` cell whose
anchor was already recorded as dropped by the row-major pass becomes
`Empty` while every other `Shadowed` cell keeps its reference. -/
theorem claim_C4_flat_map_filtering {T U : Type} (t : Table T)
    (f : T → Option U) (hc : 0 < t.num_cols)
    (hlen : t.cells.length = t.num_rows * t.num_cols) :
    ∃ t', t.flat_map f = some t' ∧
      t'.num_rows = t.num_rows ∧ t'.num_cols = t.num_cols ∧
      t'.cells.length = t.cells.length ∧
      ∀ i a, t.cells[i]? = some a →
        t'.cells[i]? =
          some (flatMapOutCell f a
            (droppedBefore f t.num_cols t.cells i)) := by
  have hchunks : chunksGo t.cells t.num_cols =
      chunksList t.num_rows t.num_cols t.cells :=
    chunksGo_eq_chunksList hc t.num_rows t.cells hlen
  have hci : t.cells_iter = some (enumFlatten 0
      (chunksList t.num_rows t.num_cols t.cells)) := by
    unfold cells_iter chunks_exact
    rw [if_neg (by omega : ¬ t.num_cols = 0), hchunks]
    rfl
  have hfm : t.flat_map f = some (Table.mk t.num_cols t.num_rows
      (Table.flatMapGo f (enumFlatten 0
        (chunksList t.num_rows t.num_cols t.cells)) [])) := by
    unfold flat_map
    rw [hci]
    rfl
  have hE : (enumFlatten 0
      (chunksList t.num_rows t.num_cols t.cells)).length =
      t.num_rows * t.num_cols :=
    enumFlatten_chunksList_length t.num_rows t.cells 0 hlen
  refine ⟨_, hfm, rfl, rfl, ?_, ?_⟩
  · show (Table.flatMapGo f _ _).length = _
    rw [flatMapGo_length, hE, hlen]
  · intro i a hget
    have hi : i < t.cells.length := (List.getElem?_eq_some.mp hget).1
    have hEi : (enumFlatten 0
        (chunksList t.num_rows t.num_cols t.cells))[i]? =
        some (i / t.num_cols, i % t.num_cols, a) := by
      have := enumFlatten_chunksList_getElem? hc t.num_rows t.cells 0 i a
        hlen hget
      rw [Nat.zero_add] at this
      exact this
    show (Table.flatMapGo f _ _)[i]? = _
    rw [flatMapGo_getElem? f _ [] i _ hEi]
    rw [dropsAcc_take_eq_droppedBefore f hc t.cells t.num_rows hlen i
      (by omega)]

/-- C4 witness: the amended characterization on a concrete 1×2 grid holding
a 2×2 anchor and one shadow, filtered by the constantly-`none` function. -/
theorem claim_C4_witness :
    (0 < (Table.mk 2 1 [Cell.Occupied (5 : Nat) 2 2, Cell.Shadowed 0 0]
        : Table Nat).num_cols) ∧
      ((Table.mk 2 1 [Cell.Occupied (5 : Nat) 2 2, Cell.Shadowed 0 0]
          : Table Nat).cells.length = 1 * 2) ∧
      (∃ t', (Table.mk 2 1 [Cell.Occupied (5 : Nat) 2 2, Cell.Shadowed 0 0]
          : Table Nat).flat_map (fun _ => (none : Option Nat)) = some t' ∧
        t'.num_rows = 1 ∧ t'.num_cols = 2 ∧ t'.cells.length = 2 ∧
        ∀ i a, (Table.mk 2 1 [Cell.Occupied (5 : Nat) 2 2,
            Cell.Shadowed 0 0] : Table Nat).cells[i]? = some a →
          t'.cells[i]? = some (flatMapOutCell (fun _ => (none : Option Nat))
            a (droppedBefore (fun _ => (none : Option Nat)) 2
              (Table.mk 2 1 [Cell.Occupied (5 : Nat) 2 2,
                Cell.Shadowed 0 0] : Table Nat).cells i))) :=
  ⟨Nat.zero_lt_succ 1, rfl,
    claim_C4_flat_map_filtering
      (Table.mk 2 1 [Cell.Occupied (5 : Nat) 2 2, Cell.Shadowed 0 0])
      (fun _ => none) (Nat.zero_lt_succ 1) rfl⟩

/-! ## format_html: string-sink evaluation -/

theorem except_bind_ok {ε α β : Type} (a : α) (g : α → Except ε β) :
    (Except.ok a >>= g) = g a := rfl

theorem strWriter_write {ε : Type} (s x : String) :
    (strWriter : Writer String ε).write s x = Except.ok (s ++ x) := rfl

theorem formatCellW_str {T ε : Type} (f : T → String) (w : String)
    (cell : Cell T) :
    formatCellW (strWriter : Writer String ε) (appendFormat f) w cell =
      Except.ok (w ++ specCellStr f cell) := by
  cases cell with
  | Empty => rfl
  | Occupied v cs rs =>
      simp only [formatCellW, strWriter, appendFormat, specCellStr]
      split_ifs <;>
        simp [bind, Except.bind, pure, Except.pure, String.append_assoc,
          String.append_empty]
  | Shadowed c r =>
      simp [formatCellW, specCellStr, String.append_empty, pure, Except.pure]

theorem foldCells_str {T ε : Type} (f : T → String) :
    ∀ (cells : List (Cell T)) (w : String),
      List.foldlM (fun w cell =>
          formatCellW (strWriter : Writer String ε) (appendFormat f) w cell)
        w cells = Except.ok (w ++ specRowStr f cells) := by
  intro cells
  induction cells with
  | nil =>
      intro w
      simp [specRowStr, String.append_empty, pure, Except.pure]
  | cons cell rest ih =>
      intro w
      rw [List.foldlM_cons, formatCellW_str]
      show List.foldlM _ (w ++ specCellStr f cell) rest = _
      rw [ih]
      rw [specRowStr, ← String.append_assoc]

theorem formatRowW_str {T ε : Type} (f : T → String) (w : String)
    (cells : List (Cell T)) :
    formatRowW (strWriter : Writer String ε) (appendFormat f) w cells =
      Except.ok (w ++ ("<tr>\n" ++ specRowStr f cells ++ "</tr>\n")) := by
  unfold formatRowW
  simp only [strWriter_write, except_bind_ok]
  rw [foldCells_str]
  simp only [except_bind_ok]
  simp [String.append_assoc]

theorem formatRowsW_str {T ε : Type} (f : T → String) (k : Nat) :
    ∀ (n : Nat) (cells : List (Cell T)) (w : String),
      formatRowsW (strWriter : Writer String ε) (appendFormat f) w
          (chunksList n k cells) =
        Except.ok (w ++ specRowsStr f n k cells) := by
  intro n
  induction n with
  | zero =>
      intro cells w
      show Except.ok w = _
      rw [specRowsStr, String.append_empty]
  | succ n ih =>
      intro cells w
      show List.foldlM _ w (chunksList (n + 1) k cells) = _
      rw [chunksList, List.foldlM_cons, formatRowW_str]
      simp only [except_bind_ok]
      show formatRowsW _ _ _ (chunksList n k (cells.drop k)) = _
      rw [ih]
      rw [specRowsStr]
      simp [String.append_assoc]

theorem except_bind_error {ε α β : Type} (e : ε) (g : α → Except ε β) :
    (Except.error e >>= g : Except ε β) = Except.error e := rfl

theorem except_pure_bind {ε α β : Type} (a : α) (g : α → Except ε β) :
    (pure a >>= g : Except ε β) = g a := rfl

theorem budgetWriter_write_zero {ε : Type} (e : ε) (s x : String) :
    (budgetWriter e).write (0, s) x = Except.error e := rfl

theorem budgetWriter_write_succ {ε : Type} (e : ε) (m : Nat)
    (s x : String) :
    (budgetWriter e).write (m + 1, s) x = Except.ok (m, s ++ x) := rfl

theorem two_writes_budget {ε : Type} (e : ε) (x y : String) :
    ∀ (m : Nat) (s : String),
      ((budgetWriter e).write (m, s) x >>= fun w =>
          (budgetWriter e).write w y) =
        if 2 ≤ m then Except.ok (m - 2, s ++ x ++ y)
        else Except.error e := by
  intro m s
  cases m with
  | zero => rfl
  | succ m =>
      cases m with
      | zero => rfl
      | succ m =>
          simp only [budgetWriter_write_succ, except_bind_ok]
          rw [if_pos (by omega)]
          have hm : m + 1 + 1 - 2 = m := by omega
          rw [hm]

theorem formatCellW_budget {T ε : Type} (f : T → String) (e : ε)
    (cell : Cell T) :
    ∀ (m : Nat) (s : String),
      formatCellW (budgetWriter e) (budgetValueWrite f e) (m, s) cell =
        if cellWrites cell ≤ m then
          Except.ok (m - cellWrites cell, s ++ specCellStr f cell)
        else Except.error e := by
  intro m s
  cases cell with
  | Empty =>
      cases m with
      | zero => rfl
      | succ m =>
          rw [if_pos (show cellWrites (Cell.Empty : Cell T) ≤ m + 1 from
            Nat.succ_le_succ (Nat.zero_le m))]
          rfl
  | Shadowed c r =>
      simp [formatCellW, cellWrites, specCellStr, String.append_empty,
        pure, Except.pure, Nat.zero_le]
  | Occupied v cs rs =>
      by_cases hcs : cs ≠ 1 <;> by_cases hrs : rs ≠ 1
      · simp only [formatCellW, specCellStr, cellWrites, budgetValueWrite,
          ne_eq, hcs, hrs, not_false_eq_true, ite_true]
        rcases Nat.lt_or_ge m 6 with hm | hm
        · interval_cases m <;> rfl
        · obtain ⟨m2, rfl⟩ : ∃ m2, m = m2 + 1 + 1 + 1 + 1 + 1 + 1 :=
            ⟨m - 6, by omega⟩
          simp only [budgetWriter_write_succ, except_bind_ok,
            except_pure_bind]
          rw [if_pos (by omega)]
          simp [String.append_assoc, String.append_empty]
      · simp only [ne_eq, not_not] at hrs
        subst hrs
        simp only [formatCellW, specCellStr, cellWrites, budgetValueWrite,
          ne_eq, hcs, not_false_eq_true, ite_true, eq_self_iff_true,
          not_true_eq_false, ite_false]
        rcases Nat.lt_or_ge m 5 with hm | hm
        · interval_cases m <;> rfl
        · obtain ⟨m2, rfl⟩ : ∃ m2, m = m2 + 1 + 1 + 1 + 1 + 1 :=
            ⟨m - 5, by omega⟩
          simp only [budgetWriter_write_succ, except_bind_ok,
            except_pure_bind]
          rw [if_pos (by omega)]
          simp [String.append_assoc, String.append_empty]
      · simp only [ne_eq, not_not] at hcs
        subst hcs
        simp only [formatCellW, specCellStr, cellWrites, budgetValueWrite,
          ne_eq, hrs, not_false_eq_true, ite_true, eq_self_iff_true,
          not_true_eq_false, ite_false]
        rcases Nat.lt_or_ge m 5 with hm | hm
        · interval_cases m <;> rfl
        · obtain ⟨m2, rfl⟩ : ∃ m2, m = m2 + 1 + 1 + 1 + 1 + 1 :=
            ⟨m - 5, by omega⟩
          simp only [budgetWriter_write_succ, except_bind_ok,
            except_pure_bind]
          rw [if_pos (by omega)]
          simp [String.append_assoc, String.append_empty]
      · simp only [ne_eq, not_not] at hcs hrs
        subst hcs
        subst hrs
        simp only [formatCellW, specCellStr, cellWrites, budgetValueWrite,
          ne_eq, eq_self_iff_true, not_true_eq_false, ite_false]
        rcases Nat.lt_or_ge m 4 with hm | hm
        · interval_cases m <;> rfl
        · obtain ⟨m2, rfl⟩ : ∃ m2, m = m2 + 1 + 1 + 1 + 1 :=
            ⟨m - 4, by omega⟩
          simp only [budgetWriter_write_succ, except_bind_ok,
            except_pure_bind]
          rw [if_pos (by omega)]
          simp [String.append_assoc, String.append_empty]

theorem foldCells_budget {T ε : Type} (f : T → String) (e : ε) :
    ∀ (cells : List (Cell T)) (m : Nat) (s : String),
      List.foldlM (fun w cell =>
          formatCellW (budgetWriter e) (budgetValueWrite f e) w cell)
        (m, s) cells =
        if rowWrites cells ≤ m then
          Except.ok (m - rowWrites cells, s ++ specRowStr f cells)
        else Except.error e := by
  intro cells
  induction cells with
  | nil =>
      intro m s
      simp [rowWrites, specRowStr, String.append_empty, pure, Except.pure,
        Nat.zero_le]
  | cons cell rest ih =>
      intro m s
      rw [List.foldlM_cons, formatCellW_budget]
      have hrw : rowWrites (cell :: rest) =
          cellWrites cell + rowWrites rest := rfl
      by_cases h1 : cellWrites cell ≤ m
      · rw [if_pos h1]
        simp only [except_bind_ok]
        rw [ih]
        by_cases h2 : rowWrites rest ≤ m - cellWrites cell
        · rw [if_pos h2, hrw, if_pos (by omega)]
          have hb : m - cellWrites cell - rowWrites rest =
              m - (cellWrites cell + rowWrites rest) := by omega
          rw [hb]
          have hs : specRowStr f (cell :: rest) =
              specCellStr f cell ++ specRowStr f rest := rfl
          rw [hs]
          simp [String.append_assoc]
        · rw [if_neg h2, hrw, if_neg (by omega)]
      · rw [if_neg h1]
        simp only [except_bind_error]
        rw [hrw, if_neg (by omega)]

theorem formatRowW_budget {T ε : Type} (f : T → String) (e : ε)
    (cells : List (Cell T)) :
    ∀ (m : Nat) (s : String),
      formatRowW (budgetWriter e) (budgetValueWrite f e) (m, s) cells =
        if 2 + rowWrites cells ≤ m then
          Except.ok (m - (2 + rowWrites cells),
            s ++ ("<tr>\n" ++ specRowStr f cells ++ "</tr>\n"))
        else Except.error e := by
  intro m s
  unfold formatRowW
  cases m with
  | zero =>
      simp only [budgetWriter_write_zero, except_bind_error]
      rw [if_neg (by omega)]
  | succ m =>
      simp only [budgetWriter_write_succ, except_bind_ok]
      rw [foldCells_budget]
      by_cases h : rowWrites cells ≤ m
      · rw [if_pos h]
        simp only [except_bind_ok]
        by_cases h2 : 1 ≤ m - rowWrites cells
        · obtain ⟨m2, hm2⟩ : ∃ m2, m - rowWrites cells = m2 + 1 :=
            ⟨m - rowWrites cells - 1, by omega⟩
          rw [hm2, budgetWriter_write_succ, if_pos (by omega)]
          have hb : m2 = m + 1 - (2 + rowWrites cells) := by omega
          rw [hb]
          simp [String.append_assoc]
        · rw [show m - rowWrites cells = 0 from by omega,
            budgetWriter_write_zero, if_neg (by omega)]
      · rw [if_neg h]
        simp only [except_bind_error]
        rw [if_neg (by omega)]

theorem formatRowsW_budget {T ε : Type} (f : T → String) (e : ε)
    (k : Nat) :
    ∀ (n : Nat) (cells : List (Cell T)) (m : Nat) (s : String),
      formatRowsW (budgetWriter e) (budgetValueWrite f e) (m, s)
          (chunksList n k cells) =
        if rowsWrites n k cells ≤ m then
          Except.ok (m - rowsWrites n k cells,
            s ++ specRowsStr f n k cells)
        else Except.error e := by
  intro n
  induction n with
  | zero =>
      intro cells m s
      show Except.ok (m, s) = _
      simp [rowsWrites, specRowsStr, String.append_empty, Nat.zero_le]
  | succ n ih =>
      intro cells m s
      show List.foldlM _ (m, s) (chunksList (n + 1) k cells) = _
      rw [chunksList, List.foldlM_cons, formatRowW_budget]
      have hrw : rowsWrites (n + 1) k cells =
          2 + rowWrites (cells.take k) + rowsWrites n k (cells.drop k) :=
        rfl
      by_cases h1 : 2 + rowWrites (cells.take k) ≤ m
      · rw [if_pos h1]
        simp only [except_bind_ok]
        show formatRowsW _ _ _ (chunksList n k (cells.drop k)) = _
        rw [ih]
        by_cases h2 : rowsWrites n k (cells.drop k) ≤
            m - (2 + rowWrites (cells.take k))
        · rw [if_pos h2, hrw, if_pos (by omega)]
          have hb : m - (2 + rowWrites (cells.take k))
              - rowsWrites n k (cells.drop k) =
              m - (2 + rowWrites (cells.take k)
                + rowsWrites n k (cells.drop k)) := by omega
          rw [hb]
          have hs : specRowsStr f (n + 1) k cells =
              "<tr>\n" ++ specRowStr f (cells.take k) ++ "</tr>\n"
                ++ specRowsStr f n k (cells.drop k) := rfl
          rw [hs]
          simp [String.append_assoc]
        · rw [if_neg h2, hrw, if_neg (by omega)]
      · rw [if_neg h1]
        simp only [except_bind_error]
        rw [hrw, if_neg (by omega)]

/-- C8: rendering.  On any grid satisfying the shape invariant:
(1) with either dimension zero, nothing is written to any sink and the sink
comes back unchanged; (2) on the string sink the output is exactly one
`<table>` containing one `<tbody>`, one `<tr>` per row, one `<td>` per
`Empty` or `Occupied` cell in row-major order and nothing for `Shadowed`
cells, unquoted `colspan=N` then `rowspan=N` attributes each emitted only
when `N ≠ 1`, the formatted value as inner content, `<td></td>` for
`Empty`; (3) a sink write failure at *any* position in the write sequence
aborts rendering and is returned to the caller: on a sink whose first `m`
writes succeed and whose next write fails with `e`, the render returns
exactly `e` whenever `m` is below the render's total write count, and the
full output otherwise; (4) in particular a sink whose every write fails
returns its error verbatim. -/
theorem claim_C8_format_html_shape {T : Type} (t : Table T)
    (hlen : t.num_cols * t.num_rows = t.cells.length) :
    (∀ (σ ε : Type) (W : Writer σ ε) (fc : σ → T → Except ε σ) (w : σ),
        t.num_cols = 0 ∨ t.num_rows = 0 →
        t.format_html W fc w = some (Except.ok w)) ∧
      (∀ (ε : Type) (f : T → String) (s : String),
        t.format_html (strWriter : Writer String ε) (appendFormat f) s =
          some (Except.ok (s ++ htmlSpec f t))) ∧
      (∀ (ε : Type) (e : ε) (f : T → String) (m : Nat) (s : String),
        t.format_html (budgetWriter e) (budgetValueWrite f e) (m, s) =
          some (if totalWrites t ≤ m then
              Except.ok (m - totalWrites t, s ++ htmlSpec f t)
            else Except.error e)) ∧
      (∀ (σ ε : Type) (e : ε) (fc : σ → T → Except ε σ) (w : σ),
        t.num_cols ≠ 0 → t.num_rows ≠ 0 →
        t.format_html (failWriter e) fc w = some (Except.error e)) := by
  refine ⟨?_, ?_, ?_, ?_⟩
  · intro σ ε W fc w hz
    unfold format_html
    rw [if_pos hlen, if_pos hz]
  · intro ε f s
    by_cases hz : t.num_cols = 0 ∨ t.num_rows = 0
    · unfold format_html
      rw [if_pos hlen, if_pos hz]
      unfold htmlSpec
      rw [if_pos hz, String.append_empty]
    · have hnc0 : ¬ t.num_cols = 0 := by
        intro h
        exact hz (Or.inl h)
      have hncpos : 0 < t.num_cols := by omega
      have hlen' : t.cells.length = t.num_rows * t.num_cols := by
        rw [Nat.mul_comm] at hlen
        omega
      have hchunks : chunksGo t.cells t.num_cols =
          chunksList t.num_rows t.num_cols t.cells :=
        chunksGo_eq_chunksList hncpos t.num_rows t.cells hlen'
      unfold format_html chunks_exact
      rw [if_pos hlen, if_neg hz, if_neg hnc0, hchunks]
      rw [Option.map_some']
      congr 1
      simp only [strWriter_write, except_bind_ok]
      rw [formatRowsW_str]
      simp only [except_bind_ok]
      unfold htmlSpec
      rw [if_neg hz]
      simp [String.append_assoc]
  · intro ε e f m s
    by_cases hz : t.num_cols = 0 ∨ t.num_rows = 0
    · unfold format_html
      rw [if_pos hlen, if_pos hz]
      have htw : totalWrites t = 0 := by
        unfold totalWrites
        rw [if_pos hz]
      rw [htw, if_pos (Nat.zero_le m)]
      unfold htmlSpec
      rw [if_pos hz, String.append_empty]
      rfl
    · have hnc0 : ¬ t.num_cols = 0 := by
        intro h
        exact hz (Or.inl h)
      have hncpos : 0 < t.num_cols := by omega
      have hlen' : t.cells.length = t.num_rows * t.num_cols := by
        rw [Nat.mul_comm] at hlen
        omega
      have hchunks : chunksGo t.cells t.num_cols =
          chunksList t.num_rows t.num_cols t.cells :=
        chunksGo_eq_chunksList hncpos t.num_rows t.cells hlen'
      have htw : totalWrites t =
          4 + rowsWrites t.num_rows t.num_cols t.cells := by
        unfold totalWrites
        rw [if_neg hz]
      unfold format_html chunks_exact
      rw [if_pos hlen, if_neg hz, if_neg hnc0, hchunks, Option.map_some',
        htw]
      congr 1
      cases m with
      | zero =>
          simp only [budgetWriter_write_zero, except_bind_error]
          rw [if_neg (by omega)]
      | succ m =>
          cases m with
          | zero =>
              simp only [budgetWriter_write_succ, except_bind_ok,
                budgetWriter_write_zero, except_bind_error]
              rw [if_neg (by omega)]
          | succ m =>
              simp only [budgetWriter_write_succ, except_bind_ok]
              rw [formatRowsW_budget]
              by_cases h : rowsWrites t.num_rows t.num_cols t.cells ≤ m
              · rw [if_pos h]
                simp only [except_bind_ok]
                rw [two_writes_budget]
                by_cases h2 :
                    2 ≤ m - rowsWrites t.num_rows t.num_cols t.cells
                · rw [if_pos h2, if_pos (by omega)]
                  have hb : m - rowsWrites t.num_rows t.num_cols t.cells
                      - 2 = m + 1 + 1
                      - (4 + rowsWrites t.num_rows t.num_cols t.cells) := by
                    omega
                  rw [hb]
                  unfold htmlSpec
                  rw [if_neg hz]
                  simp [String.append_assoc]
                · rw [if_neg h2, if_neg (by omega)]
              · rw [if_neg h]
                simp only [except_bind_error]
                rw [if_neg (by omega)]
  · intro σ ε e fc w hc hr
    unfold format_html chunks_exact
    rw [if_pos hlen, if_neg (by tauto), if_neg hc]
    rfl

/-- C8 witness: the rendering characterization applied to the concrete 1×2
grid holding one `Occupied` value and one `Empty` cell. -/
theorem claim_C8_witness :
    ((Table.mk 2 1 [Cell.Occupied "X" 1 1, Cell.Empty]
          : Table String).num_cols *
        (Table.mk 2 1 [Cell.Occupied "X" 1 1, Cell.Empty]
          : Table String).num_rows =
        (Table.mk 2 1 [Cell.Occupied "X" 1 1, Cell.Empty]
          : Table String).cells.length) ∧
      ((∀ (σ ε : Type) (W : Writer σ ε)
          (fc : σ → String → Except ε σ) (w : σ),
          (Table.mk 2 1 [Cell.Occupied "X" 1 1, Cell.Empty]
              : Table String).num_cols = 0 ∨
            (Table.mk 2 1 [Cell.Occupied "X" 1 1, Cell.Empty]
              : Table String).num_rows = 0 →
          (Table.mk 2 1 [Cell.Occupied "X" 1 1, Cell.Empty]
              : Table String).format_html W fc w = some (Except.ok w)) ∧
        (∀ (ε : Type) (f : String → String) (s : String),
          (Table.mk 2 1 [Cell.Occupied "X" 1 1, Cell.Empty]
              : Table String).format_html (strWriter : Writer String ε)
              (appendFormat f) s =
            some (Except.ok (s ++ htmlSpec f
              (Table.mk 2 1 [Cell.Occupied "X" 1 1, Cell.Empty])))) ∧
        (∀ (ε : Type) (e : ε) (f : String → String) (m : Nat) (s : String),
          (Table.mk 2 1 [Cell.Occupied "X" 1 1, Cell.Empty]
              : Table String).format_html (budgetWriter e)
              (budgetValueWrite f e) (m, s) =
            some (if totalWrites
                (Table.mk 2 1 [Cell.Occupied "X" 1 1, Cell.Empty]
                  : Table String) ≤ m then
                Except.ok (m - totalWrites
                  (Table.mk 2 1 [Cell.Occupied "X" 1 1, Cell.Empty]
                    : Table String),
                  s ++ htmlSpec f
                    (Table.mk 2 1 [Cell.Occupied "X" 1 1, Cell.Empty]))
              else Except.error e)) ∧
        (∀ (σ ε : Type) (e : ε) (fc : σ → String → Except ε σ) (w : σ),
          (Table.mk 2 1 [Cell.Occupied "X" 1 1, Cell.Empty]
              : Table String).num_cols ≠ 0 →
          (Table.mk 2 1 [Cell.Occupied "X" 1 1, Cell.Empty]
              : Table String).num_rows ≠ 0 →
          (Table.mk 2 1 [Cell.Occupied "X" 1 1, Cell.Empty]
              : Table String).format_html (failWriter e) fc w =
            some (Except.error e))) :=
  ⟨rfl, claim_C8_format_html_shape
    (Table.mk 2 1 [Cell.Occupied "X" 1 1, Cell.Empty]) rfl⟩

end TableRs
